import Mathlib

/-!
Verification of the duplicate-message suppression subsystem of
CHUDO2022/support_bot (`src/bot/filters.py`, class `DuplicateMessageFilter`).

Python strings are modelled as `List Char`; Python floats (timestamps and
similarity scores) are modelled as exact rationals `ℚ` — at every comparison
point exercised here the rounded doubles and the exact rationals order the
same way.  The Python `set` of hashes is modelled as a duplicate-free list,
`set.add` as conditional append and `set.discard` as `List.erase`.  The
Python `dict`/`defaultdict` of per-user deques is modelled as an association
list in insertion order; `deque(maxlen=m)` keeps the last `m` appended
elements.  MD5 (`hashlib.md5(...).hexdigest()`) is modelled as an injective
fingerprint of the normalized text, i.e. the identity on `List Char`.
-/

namespace SupportBot

/-- A Python string, as its list of characters. -/
abbrev Text := List Char

/-- Lowercasing on code points, covering the scripts that occur in the
repository's texts: ASCII `A`–`Z`, Cyrillic `А`–`Я` (U+0410–U+042F) and
`Ё` (U+0401).  This models Python's locale-aware `str.lower` restricted to
those ranges (all other code points are fixed). -/
def lowerCode (n : Nat) : Nat :=
  if 65 ≤ n ∧ n ≤ 90 then n + 32
  else if 0x410 ≤ n ∧ n ≤ 0x42F then n + 0x20
  else if n = 0x401 then 0x451
  else n

/-- Charwise lowercasing (model of `str.lower`). -/
def toLowerChar (c : Char) : Char := Char.ofNat (lowerCode c.toNat)

/-- Python whitespace as recognized by `str.split()` / `str.strip()`
(ASCII space, tab, newline, carriage return, vertical tab, form feed). -/
def isSpaceChar (c : Char) : Bool :=
  c = ' ' || c = '\t' || c = '\n' || c = '\r' || c = Char.ofNat 11 || c = Char.ofNat 12

/-- Model of the regex class `\w` from `re.sub(r'[^\w\s]', '', ...)`:
Python's Unicode word characters, restricted to the scripts occurring in the
repository (ASCII letters, digits, underscore, and the Cyrillic block
U+0400–U+04FF). -/
def isWordChar (c : Char) : Bool :=
  ('a' ≤ c && c ≤ 'z') || ('A' ≤ c && c ≤ 'Z') || ('0' ≤ c && c ≤ '9') ||
    c = '_' || (0x400 ≤ c.toNat && c.toNat ≤ 0x4FF)

/-- `str.strip()`: drop whitespace from both ends. -/
def pyStrip (cs : Text) : Text :=
  ((cs.dropWhile isSpaceChar).reverse.dropWhile isSpaceChar).reverse

/-- Accumulator version of `str.split()`: split on whitespace runs,
discarding empty tokens.  `cur` holds the current token reversed. -/
def splitWordsAux : Text → Text → List Text
  | [], cur => if cur = [] then [] else [cur.reverse]
  | c :: rest, cur =>
    if isSpaceChar c then
      if cur = [] then splitWordsAux rest []
      else cur.reverse :: splitWordsAux rest []
    else splitWordsAux rest (c :: cur)

/-- `str.split()` with no separator argument. -/
def splitWords (cs : Text) : List Text := splitWordsAux cs []

/-- `' '.join(tokens)`. -/
def joinSpace : List Text → Text
  | [] => []
  | [w] => w
  | w :: ws => w ++ ' ' :: joinSpace ws

/-- `DuplicateMessageFilter._normalize_text`: empty-guard, then
`text.lower().strip()`, then `' '.join(normalized.split())`, then
`re.sub(r'[^\w\s]', '', normalized)` — note the punctuation removal happens
AFTER the whitespace collapsing, exactly as in the source. -/
def normalizeText (text : Text) : Text :=
  if text = [] then []
  else
    let lowered := text.map toLowerChar
    let stripped := pyStrip lowered
    let collapsed := joinSpace (splitWords stripped)
    collapsed.filter (fun c => isWordChar c || isSpaceChar c)

/-- `hashlib.md5(normalized.encode('utf-8')).hexdigest()`, modelled as an
injective fingerprint of the normalized text (identity). -/
def md5Hex (s : Text) : Text := s

/-- `DuplicateMessageFilter._calculate_similarity`: 0 on a raw-empty side,
1 on equal normal forms, otherwise the Jaccard coefficient of the distinct
word sets of the two normal forms. -/
def calculateSimilarity (text1 text2 : Text) : ℚ :=
  if text1 = [] || text2 = [] then 0
  else
    let norm1 := normalizeText text1
    let norm2 := normalizeText text2
    if norm1 = norm2 then 1
    else
      let words1 := (splitWords norm1).dedup
      let words2 := (splitWords norm2).dedup
      if words1 = [] || words2 = [] then 0
      else
        let inter := (words1.filter (fun w => decide (w ∈ words2))).length
        let uni := words1.length + (words2.filter (fun w => decide (¬ w ∈ words1))).length
        if 0 < uni then (inter : ℚ) / (uni : ℚ) else 0

/-- One element of a per-user deque: `(timestamp, message_hash, text)`. -/
structure HistoryEntry where
  timestamp : ℚ
  msgHash : Text
  msgText : Text
deriving DecidableEq

/-- The mutable state of a `DuplicateMessageFilter` instance. -/
structure FilterState where
  timeWindow : ℚ
  maxMessagesPerUser : Nat
  similarityThreshold : ℚ
  /-- `self.user_messages`: insertion-ordered map `user_id → deque`
  (oldest entry first inside each deque). -/
  userMessages : List (Nat × List HistoryEntry)
  /-- `self.message_hashes`: the global hash set. -/
  messageHashes : List Text
  blockedCount : Nat
  totalProcessed : Nat
deriving DecidableEq

/-- `DuplicateMessageFilter.__init__`. -/
def initState (tw : ℚ) (ml : Nat) (th : ℚ) : FilterState :=
  ⟨tw, ml, th, [], [], 0, 0⟩

/-- Association-list lookup (`dict.__getitem__` / `in` test combined). -/
def lookupUser (u : Nat) : List (Nat × List HistoryEntry) → Option (List HistoryEntry)
  | [] => Option.none
  | (k, v) :: rest => if k = u then some v else lookupUser u rest

/-- Association-list update: replaces the binding of `u`, or appends a new
binding at the end (Python dicts keep insertion order). -/
def setUser (u : Nat) (d : List HistoryEntry) :
    List (Nat × List HistoryEntry) → List (Nat × List HistoryEntry)
  | [] => [(u, d)]
  | (k, v) :: rest => if k = u then (u, d) :: rest else (k, v) :: setUser u d rest

/-- `set.add`: a no-op when the hash is already present. -/
def insertHash (hs : List Text) (h : Text) : List Text :=
  if h ∈ hs then hs else hs ++ [h]

/-- The `while` loop of `_cleanup_old_messages`: pop entries older than the
window from the front of the deque, discarding each popped entry's hash from
the global set. -/
def cleanupLoop (tw now : ℚ) : List HistoryEntry → List Text → List HistoryEntry × List Text
  | [], hs => ([], hs)
  | e :: rest, hs =>
    if tw < now - e.timestamp then cleanupLoop tw now rest (hs.erase e.msgHash)
    else (e :: rest, hs)

/-- `DuplicateMessageFilter._cleanup_old_messages`.  The `defaultdict`
access `self.user_messages[user_id]` creates the user's (possibly empty)
deque, so the key is always written back. -/
def cleanupOldMessages (u : Nat) (now : ℚ) (st : FilterState) : FilterState :=
  let d := (lookupUser u st.userMessages).getD []
  let r := cleanupLoop st.timeWindow now d st.messageHashes
  { st with userMessages := setUser u r.1 st.userMessages, messageHashes := r.2 }

/-- Appending to a deque with maxlen `m`: keeps the last `m` elements. -/
def dequeAppend (maxlen : Nat) (d : List HistoryEntry) (e : HistoryEntry) : List HistoryEntry :=
  let d2 := d ++ [e]
  d2.drop (d2.length - maxlen)

/-- `DuplicateMessageFilter.is_duplicate`, with `time.time()` passed in as
`now`.  Returns the decision (`true` = suppress) and the updated state. -/
def isDuplicate (st : FilterState) (now : ℚ) (u : Nat) (msg : Text) : Bool × FilterState :=
  let st1 := { st with totalProcessed := st.totalProcessed + 1 }
  let st2 := cleanupOldMessages u now st1
  let norm := normalizeText msg
  if norm = [] then (false, st2)
  else
    let h := md5Hex norm
    if h ∈ st2.messageHashes then
      (true, { st2 with blockedCount := st2.blockedCount + 1 })
    else
      let d := (lookupUser u st2.userMessages).getD []
      if d.any (fun e => decide (st2.similarityThreshold ≤ calculateSimilarity msg e.msgText)) then
        (true, { st2 with blockedCount := st2.blockedCount + 1 })
      else
        (false, { st2 with
          userMessages := setUser u (dequeAppend st2.maxMessagesPerUser d ⟨now, h, msg⟩) st2.userMessages,
          messageHashes := insertHash st2.messageHashes h })

/-- The dictionary returned by `get_stats`. -/
structure Stats where
  totalProcessed : Nat
  blockedCount : Nat
  activeUsers : Nat
  cachedMessages : Nat
deriving DecidableEq

/-- `DuplicateMessageFilter.get_stats`: `active_users` is
`len(self.user_messages)` (the number of dict keys), `cached_messages` the
sum of the deque lengths. -/
def getStats (st : FilterState) : Stats :=
  ⟨st.totalProcessed, st.blockedCount, st.userMessages.length,
    (st.userMessages.map (fun p => p.2.length)).sum⟩

/-- `DuplicateMessageFilter.clear_user_cache`: if the user has a deque,
discard its entries' hashes and clear the deque (the dict key remains). -/
def clearUserCache (u : Nat) (st : FilterState) : FilterState :=
  match lookupUser u st.userMessages with
  | Option.none => st
  | some d =>
    { st with
      messageHashes := d.foldl (fun hs e => hs.erase e.msgHash) st.messageHashes,
      userMessages := setUser u [] st.userMessages }

/-- `DuplicateMessageFilter.clear_all_cache`. -/
def clearAllCache (st : FilterState) : FilterState :=
  { st with userMessages := [], messageHashes := [], blockedCount := 0, totalProcessed := 0 }

/-- `DuplicateMessageFilter.get_user_recent_messages`: `list(deque)[-limit:]`.
For `limit = 0` the Python slice `[-0:]` is `[0:]`, i.e. the whole list. -/
def getUserRecentMessages (st : FilterState) (u : Nat) (limit : Nat) : List HistoryEntry :=
  match lookupUser u st.userMessages with
  | Option.none => []
  | some d => if limit = 0 then d else d.drop (d.length - limit)

/-- The state-mutating public operations, for reachability statements. -/
inductive Op where
  | dup (now : ℚ) (u : Nat) (msg : Text)
  | clearUser (u : Nat)
  | clearAll
deriving DecidableEq

/-- One public call. -/
def step (st : FilterState) : Op → FilterState
  | Op.dup now u msg => (isDuplicate st now u msg).2
  | Op.clearUser u => clearUserCache u st
  | Op.clearAll => clearAllCache st

/-- A sequence of public calls. -/
def run (st : FilterState) : List Op → FilterState
  | [] => st
  | op :: ops => run (step st op) ops

/-- A sequence of `is_duplicate` calls, collecting the returned booleans. -/
def runDups (st : FilterState) : List (ℚ × Nat × Text) → List Bool × FilterState
  | [] => ([], st)
  | (now, u, m) :: rest =>
    let r := isDuplicate st now u m
    let rr := runDups r.2 rest
    (r.1 :: rr.1, rr.2)

/-- All retained entries across every user's deque. -/
def umEntries (um : List (Nat × List HistoryEntry)) : List HistoryEntry :=
  (um.map (fun p => p.2)).flatten

/-- All retained entries of a filter state. -/
def allEntries (st : FilterState) : List HistoryEntry := umEntries st.userMessages

/-- The hashes carried by the retained entries, with multiplicity. -/
def allHashes (st : FilterState) : List Text := (allEntries st).map (fun e => e.msgHash)

/-- The global-hash-index invariant: every retained entry's hash is in
`message_hashes`, and no two retained entries carry the same hash. -/
def HashInv (st : FilterState) : Prop :=
  (∀ e ∈ allEntries st, e.msgHash ∈ st.messageHashes) ∧ (allHashes st).Nodup

/-- A Python runtime value passed as `message_text` (the dynamically typed
argument of `is_duplicate`): `None`, a string, or an integer. -/
inductive PyVal where
  | pynone
  | pystr (s : Text)
  | pyint (n : Int)
deriving DecidableEq

/-- `is_duplicate` called with an arbitrary Python value as `message_text`.
`None` and falsy values pass the `if not text` guard in `_normalize_text`
and are treated as the empty text; a truthy non-string reaches
`text.lower()` and raises `AttributeError` — after `total_processed` was
already incremented and the stale-entry cleanup ran.  The error value
carries the exception name and the state at the raise point. -/
def isDuplicatePy (st : FilterState) (now : ℚ) (u : Nat) (v : PyVal) :
    Except (Text × FilterState) (Bool × FilterState) :=
  match v with
  | PyVal.pystr s => Except.ok (isDuplicate st now u s)
  | PyVal.pynone => Except.ok (isDuplicate st now u [])
  | PyVal.pyint n =>
    if n = 0 then Except.ok (isDuplicate st now u [])
    else Except.error ("AttributeError".data,
      cleanupOldMessages u now { st with totalProcessed := st.totalProcessed + 1 })

/-- The text "Привет!" of the spec's concrete scenario. -/
def privetText : Text := "Привет!".data

/-- The text "Как дела?" of the spec's concrete scenario. -/
def kakDelaText : Text := "Как дела?".data

/-- The six pairwise distinct, pairwise non-similar one-word messages of the
capacity-eviction scenario, sent by actor 1 inside the time window. -/
def capacityOps : List (ℚ × Nat × Text) :=
  [(0, 1, "m1".data), (0, 1, "m2".data), (0, 1, "m3".data),
   (0, 1, "m4".data), (0, 1, "m5".data), (0, 1, "m6".data)]

/-- The state after the six admissions of the capacity-eviction scenario,
with `max_messages_per_user = 5`. -/
def capacityState : FilterState := (runDups (initState 60 5 (4/5)) capacityOps).2

/-- The i-th (for `i < 100`) of 100 pairwise distinct two-letter ASCII
words "aa", "ab", ..., "jj".  Lowercase ASCII letters are fixed by
`str.lower()` and matched by `\w`, so on these texts the model and the
Python program agree exactly: the words stay distinct and none is
altered or deleted by the normalization. -/
def unitWord (i : Nat) : Text :=
  [['a', 'b', 'c', 'd', 'e', 'f', 'g', 'h', 'i', 'j'].getD (i / 10) 'z',
    ['a', 'b', 'c', 'd', 'e', 'f', 'g', 'h', 'i', 'j'].getD (i % 10) 'z']

/-- The first `n` distinct two-letter words. -/
def unitWords (n : Nat) : List Text := (List.range n).map unitWord

/-- A 100-word ASCII text: its word set has 100 elements. -/
def bigText100 : Text := joinSpace (unitWords 100)

/-- A 79-word ASCII text whose word set is a subset of `bigText100`'s: the
Jaccard similarity of the pair is exactly 79/100 = 0.79. -/
def bigText79 : Text := joinSpace (unitWords 79)

unseal Rat.add Rat.sub Rat.mul Rat.inv

/-- C4: on a fresh filter with `time_window = 60`, `max_history = 5`,
`threshold = 0.8`, actor 12345's sequence "Привет!", "Привет!",
"Как дела?", "Как дела?", "Как дела?" (all within the window) returns
false, true, false, true, true, and `get_stats` then reports
`total_processed = 5`, `total_blocked = 3`, `active_actors = 1`,
`cached_messages = 2`. -/
theorem c4_concrete_scenario :
    (runDups (initState 60 5 (4/5))
      [(1000, 12345, privetText), (1000, 12345, privetText), (1000, 12345, kakDelaText),
        (1000, 12345, kakDelaText), (1000, 12345, kakDelaText)]).1 =
      [false, true, false, true, true]
  ∧ getStats (runDups (initState 60 5 (4/5))
      [(1000, 12345, privetText), (1000, 12345, privetText), (1000, 12345, kakDelaText),
        (1000, 12345, kakDelaText), (1000, 12345, kakDelaText)]).2 = ⟨5, 3, 1, 2⟩ := by
  decide

/-- C1: with `max_history_per_actor = 5`, after one actor sends 6 distinct,
mutually non-similar messages (all admitted), an exact repeat of the FIRST
message is still SUPPRESSED (is_duplicate returns true), contrary to the
claim — the `deque(maxlen=5)` capacity eviction drops the first entry but
never removes its hash from `message_hashes`.  Repeats of messages 2–6 are
suppressed as well. -/
theorem c1_capacity_eviction_leak_eval :
    (runDups (initState 60 5 (4/5)) capacityOps).1 =
      [false, false, false, false, false, false]
  ∧ (isDuplicate capacityState 0 1 "m1".data).1 = true
  ∧ (isDuplicate capacityState 0 1 "m2".data).1 = true
  ∧ (isDuplicate capacityState 0 1 "m3".data).1 = true
  ∧ (isDuplicate capacityState 0 1 "m4".data).1 = true
  ∧ (isDuplicate capacityState 0 1 "m5".data).1 = true
  ∧ (isDuplicate capacityState 0 1 "m6".data).1 = true := by
  decide

/-- C2: the if-and-only-if index invariant is violated in a reachable
state: after the capacity-eviction scenario the hash of "m1" is still in
the global index although no retained entry carries it (5 entries are
retained but 6 hashes are indexed). -/
theorem c2_index_invariant_violated :
    "m1".data ∈ capacityState.messageHashes
  ∧ (∀ e ∈ allEntries capacityState, e.msgHash ≠ "m1".data)
  ∧ (allEntries capacityState).length = 5
  ∧ capacityState.messageHashes.length = 6 := by
  decide

/-- C3 counterexample: on a fresh filter the call sequence
`is_duplicate(1, "Привет!")`, `is_duplicate(2, "Привет!")` does NOT return
false both times — the second actor's first identical message is
suppressed through the global hash index. -/
theorem c3_counterexample :
    ¬ ((isDuplicate (initState 300 10 (4/5)) 0 1 privetText).1 = false
      ∧ (isDuplicate (run (initState 300 10 (4/5)) [Op.dup 0 1 privetText]) 0 2 privetText).1 =
          false) := by
  decide

/-- C5 counterexample: after a single empty-text call, `get_stats` reports
`active_actors = 1` although no actor history contains any entry — the
code counts dict keys (created even by empty-text calls), not histories
with at least one entry. -/
theorem c5_counterexample :
    (getStats (isDuplicate (initState 300 10 (4/5)) 0 1 []).2).activeUsers = 1
  ∧ (((isDuplicate (initState 300 10 (4/5)) 0 1 []).2).userMessages.filter
      (fun p => !p.2.isEmpty)).length = 0 := by
  decide

/-- C6 counterexample: the normalization does NOT collapse all internal
whitespace runs of its output — punctuation is removed after whitespace
collapsing, so "a . b" normalizes to "a  b" (double space), which differs
from the normalization "a b" of "a b", and the two texts, differing only in
a standalone punctuation token, get different content hashes. -/
theorem c6_counterexample :
    normalizeText "a . b".data = "a  b".data
  ∧ normalizeText "a b".data = "a b".data
  ∧ md5Hex (normalizeText "a . b".data) ≠ md5Hex (normalizeText "a b".data) := by
  decide

/-- C7 counterexample: calling `is_duplicate` with the truthy non-string
`1` raises `AttributeError` (at `text.lower()`), instead of being treated
as empty input — after `total_processed` was already incremented and the
defaultdict key for the actor was created. -/
theorem c7_counterexample :
    isDuplicatePy (initState 300 10 (4/5)) 0 1 (PyVal.pyint 1) =
      Except.error ("AttributeError".data, ⟨300, 10, 4/5, [(1, [])], [], 0, 1⟩) := by
  rfl

set_option maxRecDepth 100000 in
/-- C8: the threshold comparison is inclusive.  With `threshold = 0.8` and
no exact-hash match: the pair ("a b c d", stored "a b c d e") has word-set
Jaccard similarity exactly 4/5 = 0.8 and the new message is SUPPRESSED,
while a pair at exactly 79/100 = 0.79 (a 79-word text against a stored
100-word text sharing all 79 words) is ADMITTED. -/
theorem c8_threshold_boundary :
    calculateSimilarity "a b c d".data "a b c d e".data = 4/5
  ∧ md5Hex (normalizeText "a b c d".data) ∉
      (runDups (initState 60 5 (4/5)) [(0, 1, "a b c d e".data)]).2.messageHashes
  ∧ (runDups (initState 60 5 (4/5)) [(0, 1, "a b c d e".data), (0, 1, "a b c d".data)]).1 =
      [false, true]
  ∧ calculateSimilarity bigText79 bigText100 = 79/100
  ∧ md5Hex (normalizeText bigText79) ∉
      (runDups (initState 60 5 (4/5)) [(0, 1, bigText100)]).2.messageHashes
  ∧ (runDups (initState 60 5 (4/5)) [(0, 1, bigText100), (0, 1, bigText79)]).1 =
      [false, false] := by
  decide

/-- C9 counterexample: with one retained entry, `get_recent(actor, 0)`
returns that entry (the Python slice `[-0:]` is the whole list), so its
length is not bounded by the limit 0. -/
theorem c9_counterexample :
    ¬ ((getUserRecentMessages (isDuplicate (initState 300 10 (4/5)) 0 1 "x".data).2 1 0).length
        ≤ 0) := by
  decide

lemma toNat_charOfNat_of_valid {n : Nat} (h : n.isValidChar) : (Char.ofNat n).toNat = n := by
  unfold Char.ofNat
  rw [dif_pos h]
  rfl

lemma lowerCode_idem (n : Nat) : lowerCode (lowerCode n) = lowerCode n := by
  simp only [lowerCode]
  split_ifs <;> omega

lemma lowerCode_isValidChar {n : Nat} (h : n.isValidChar) : (lowerCode n).isValidChar := by
  unfold lowerCode
  split_ifs
  · exact Or.inl (by omega)
  · exact Or.inl (by omega)
  · exact Or.inl (by omega)
  · exact h

lemma toNat_toLowerChar (c : Char) : (toLowerChar c).toNat = lowerCode c.toNat := by
  unfold toLowerChar
  exact toNat_charOfNat_of_valid (lowerCode_isValidChar c.valid)

lemma toLowerChar_idem (c : Char) : toLowerChar (toLowerChar c) = toLowerChar c := by
  have h1 : toLowerChar (toLowerChar c) = Char.ofNat (lowerCode (toLowerChar c).toNat) := rfl
  rw [h1, toNat_toLowerChar, lowerCode_idem]
  rfl

lemma mem_pyStrip {l : Text} {c : Char} (h : c ∈ pyStrip l) : c ∈ l := by
  unfold pyStrip at h
  rw [List.mem_reverse] at h
  have h2 := (List.dropWhile_sublist isSpaceChar).subset h
  rw [List.mem_reverse] at h2
  exact (List.dropWhile_sublist isSpaceChar).subset h2

lemma mem_of_mem_splitWordsAux {c : Char} :
    ∀ (cs cur : Text) (w : Text), w ∈ splitWordsAux cs cur → c ∈ w → c ∈ cs ∨ c ∈ cur := by
  intro cs
  induction cs with
  | nil =>
    intro cur w hw hc
    unfold splitWordsAux at hw
    split at hw
    · simp at hw
    · rw [List.mem_singleton] at hw
      subst hw
      exact Or.inr (List.mem_reverse.mp hc)
  | cons a rest ih =>
    intro cur w hw hc
    unfold splitWordsAux at hw
    split at hw
    · split at hw
      · rcases ih [] w hw hc with h | h
        · exact Or.inl (List.mem_cons_of_mem _ h)
        · simp at h
      · rcases List.mem_cons.mp hw with h | h
        · subst h
          exact Or.inr (List.mem_reverse.mp hc)
        · rcases ih [] w h hc with h2 | h2
          · exact Or.inl (List.mem_cons_of_mem _ h2)
          · simp at h2
    · rcases ih (a :: cur) w hw hc with h | h
      · exact Or.inl (List.mem_cons_of_mem _ h)
      · rcases List.mem_cons.mp h with h2 | h2
        · subst h2
          exact Or.inl (List.mem_cons_self _ _)
        · exact Or.inr h2

lemma mem_of_mem_splitWords {cs : Text} {w : Text} {c : Char}
    (hw : w ∈ splitWords cs) (hc : c ∈ w) : c ∈ cs := by
  rcases mem_of_mem_splitWordsAux cs [] w hw hc with h | h
  · exact h
  · simp at h

lemma mem_joinSpace {c : Char} : ∀ {ws : List Text}, c ∈ joinSpace ws →
    c = ' ' ∨ ∃ w ∈ ws, c ∈ w := by
  intro ws
  induction ws with
  | nil =>
    intro h
    simp [joinSpace] at h
  | cons w tail ih =>
    intro h
    cases tail with
    | nil =>
      refine Or.inr ⟨w, List.mem_cons_self _ _, ?_⟩
      simpa [joinSpace] using h
    | cons v ts =>
      rw [show joinSpace (w :: v :: ts) = w ++ ' ' :: joinSpace (v :: ts) from rfl] at h
      rcases List.mem_append.mp h with h1 | h1
      · exact Or.inr ⟨w, List.mem_cons_self _ _, h1⟩
      · rcases List.mem_cons.mp h1 with h2 | h2
        · exact Or.inl h2
        · rcases ih h2 with h3 | ⟨w2, hw2, hc2⟩
          · exact Or.inl h3
          · exact Or.inr ⟨w2, List.mem_cons_of_mem _ hw2, hc2⟩

/-- C6 amended: every character of the normalized text is a word character
or a whitespace character (the final `re.sub` filter), and no uppercase
letter survives (every character is fixed by lowercasing) — but leading,
trailing or doubled spaces may remain where punctuation tokens were
deleted, because the punctuation removal runs after the whitespace
collapsing (see the counterexample). -/
theorem c6_normalize_postcondition (s : Text) :
    ∀ c ∈ normalizeText s, ((isWordChar c || isSpaceChar c) = true) ∧ toLowerChar c = c := by
  intro c hc
  unfold normalizeText at hc
  split at hc
  · simp at hc
  · simp only [List.mem_filter] at hc
    obtain ⟨hmem, hpred⟩ := hc
    refine ⟨hpred, ?_⟩
    rcases mem_joinSpace hmem with hsp | ⟨w, hw, hcw⟩
    · subst hsp
      decide
    · have h1 : c ∈ pyStrip (s.map toLowerChar) := mem_of_mem_splitWords hw hcw
      have h2 : c ∈ s.map toLowerChar := mem_pyStrip h1
      rcases List.mem_map.mp h2 with ⟨a, _, ha⟩
      rw [← ha]
      exact toLowerChar_idem a

/-- Witness for C6 at a concrete input. -/
theorem c6_normalize_postcondition_witness :
    'a' ∈ normalizeText "A b!".data
  ∧ ((isWordChar 'a' || isSpaceChar 'a') = true ∧ toLowerChar 'a' = 'a') :=
  ⟨by decide, c6_normalize_postcondition "A b!".data 'a' (by decide)⟩

lemma length_umEntries (um : List (Nat × List HistoryEntry)) :
    (umEntries um).length = (um.map (fun p => p.2.length)).sum := by
  unfold umEntries
  rw [List.length_flatten, List.map_map]
  rfl

/-- C5 amended: `get_stats` is a pure snapshot whose `total_processed` and
`blocked_count` fields mirror the counters and whose `cached_messages` is
the total number of retained entries, but `active_users` counts every
actor key in the map — an upper bound on (not in general equal to) the
number of actor histories with at least one entry. -/
theorem c5_stats_fields (st : FilterState) :
    (getStats st).totalProcessed = st.totalProcessed
  ∧ (getStats st).blockedCount = st.blockedCount
  ∧ (getStats st).cachedMessages = (allEntries st).length
  ∧ (st.userMessages.filter (fun p => !p.2.isEmpty)).length ≤ (getStats st).activeUsers := by
  refine ⟨rfl, rfl, ?_, ?_⟩
  · unfold getStats allEntries
    exact (length_umEntries st.userMessages).symm
  · exact List.length_filter_le _ _

/-- C9 amended: for every positive limit, `get_recent` returns at most
`limit` entries and the result is a suffix of the actor's retained history
(most recent entries, oldest-first); for unknown actors it returns the
empty list.  For `limit = 0` the bound FAILS (see the counterexample):
the Python slice `[-0:]` returns the whole history. -/
theorem c9_get_recent_bound (st : FilterState) (u : Nat) (limit : Nat) (h : 1 ≤ limit) :
    (getUserRecentMessages st u limit).length ≤ limit
  ∧ getUserRecentMessages st u limit <:+ (lookupUser u st.userMessages).getD [] := by
  cases hl : lookupUser u st.userMessages with
  | none =>
    have he : getUserRecentMessages st u limit = [] := by
      unfold getUserRecentMessages
      rw [hl]
    rw [he]
    exact ⟨by simp, by simp⟩
  | some d =>
    have he : getUserRecentMessages st u limit = List.drop (d.length - limit) d := by
      unfold getUserRecentMessages
      rw [hl]
      exact if_neg (by omega)
    rw [he]
    refine ⟨?_, ?_⟩
    · rw [List.length_drop]
      omega
    · simpa using List.drop_suffix _ d

/-- Witness for C9 at a concrete input. -/
theorem c9_get_recent_bound_witness :
    (1 : Nat) ≤ 1
  ∧ ((getUserRecentMessages (initState 300 10 (4/5)) 1 1).length ≤ 1
      ∧ getUserRecentMessages (initState 300 10 (4/5)) 1 1 <:+
          (lookupUser 1 (initState 300 10 (4/5)).userMessages).getD []) :=
  ⟨by decide, c9_get_recent_bound (initState 300 10 (4/5)) 1 1 (by decide)⟩

lemma isDuplicate_fresh (tw : ℚ) (ml : Nat) (th : ℚ) (now : ℚ) (u : Nat) (t : Text)
    (hnorm : normalizeText t ≠ []) :
    isDuplicate (initState tw ml th) now u t =
      (false, ⟨tw, ml, th, [(u, dequeAppend ml [] ⟨now, normalizeText t, t⟩)],
        [normalizeText t], 0, 1⟩) := by
  simp [isDuplicate, cleanupOldMessages, cleanupLoop, lookupUser, setUser, initState,
    md5Hex, insertHash, hnorm]

/-- C3 amended: on a fresh filter, the first actor's first message with
nonempty normal form is ADMITTED, but a DIFFERENT actor's first identical
message is then SUPPRESSED: the exact-hash short-circuit consults the
global (cross-actor) hash index. -/
theorem c3_cross_actor (tw : ℚ) (ml : Nat) (th : ℚ) (now : ℚ) (u1 u2 : Nat) (t : Text)
    (hnorm : normalizeText t ≠ []) (hu : u1 ≠ u2) :
    (isDuplicate (initState tw ml th) now u1 t).1 = false
  ∧ (isDuplicate (run (initState tw ml th) [Op.dup now u1 t]) now u2 t).1 = true := by
  constructor
  · rw [isDuplicate_fresh tw ml th now u1 t hnorm]
  · rw [show run (initState tw ml th) [Op.dup now u1 t] =
        (isDuplicate (initState tw ml th) now u1 t).2 from rfl,
      isDuplicate_fresh tw ml th now u1 t hnorm]
    simp [isDuplicate, cleanupOldMessages, cleanupLoop, lookupUser, setUser, md5Hex, hu, hnorm]

/-- Witness for C3 at the spec's concrete input. -/
theorem c3_cross_actor_witness :
    normalizeText privetText ≠ [] ∧ (1 : Nat) ≠ 2
  ∧ ((isDuplicate (initState 300 10 (4/5)) 0 1 privetText).1 = false
      ∧ (isDuplicate (run (initState 300 10 (4/5)) [Op.dup 0 1 privetText]) 0 2 privetText).1 =
          true) :=
  ⟨by decide, by decide, c3_cross_actor 300 10 (4/5) 0 1 2 privetText (by decide) (by decide)⟩

lemma umEntries_cons (k : Nat) (v : List HistoryEntry) (rest : List (Nat × List HistoryEntry)) :
    umEntries ((k, v) :: rest) = v ++ umEntries rest := by
  unfold umEntries
  rw [List.map_cons, List.flatten_cons]

lemma umEntries_setUser_none {u : Nat} {um : List (Nat × List HistoryEntry)}
    (h : lookupUser u um = Option.none) (d : List HistoryEntry) :
    umEntries (setUser u d um) = umEntries um ++ d := by
  induction um with
  | nil => simp [setUser, umEntries]
  | cons p rest ih =>
    obtain ⟨k, v⟩ := p
    unfold lookupUser at h
    unfold setUser
    by_cases hk : k = u
    · rw [if_pos hk] at h
      simp at h
    · rw [if_neg hk] at h
      rw [if_neg hk, umEntries_cons, umEntries_cons, ih h, List.append_assoc]

lemma umEntries_setUser_some {u : Nat} {um : List (Nat × List HistoryEntry)}
    {d0 : List HistoryEntry} (h : lookupUser u um = some d0) :
    ∃ A B, umEntries um = A ++ (d0 ++ B)
      ∧ ∀ d, umEntries (setUser u d um) = A ++ (d ++ B) := by
  induction um with
  | nil => simp [lookupUser] at h
  | cons p rest ih =>
    obtain ⟨k, v⟩ := p
    unfold lookupUser at h
    by_cases hk : k = u
    · rw [if_pos hk] at h
      injection h with h0
      refine ⟨[], umEntries rest, ?_, ?_⟩
      · rw [umEntries_cons, h0]
        simp
      · intro d
        unfold setUser
        rw [if_pos hk, umEntries_cons]
        simp
    · rw [if_neg hk] at h
      obtain ⟨A, B, h1, h2⟩ := ih h
      refine ⟨v ++ A, B, ?_, ?_⟩
      · rw [umEntries_cons, h1, List.append_assoc]
      · intro d
        unfold setUser
        rw [if_neg hk, umEntries_cons, h2 d, List.append_assoc]

lemma cleanupLoop_spec (tw now : ℚ) :
    ∀ (d : List HistoryEntry) (hs : List Text),
      ∃ p, d = p ++ (cleanupLoop tw now d hs).1
        ∧ (cleanupLoop tw now d hs).2 = p.foldl (fun a e => a.erase e.msgHash) hs := by
  intro d
  induction d with
  | nil => intro hs; exact ⟨[], rfl, rfl⟩
  | cons e rest ih =>
    intro hs
    unfold cleanupLoop
    split
    · obtain ⟨p, hp1, hp2⟩ := ih (hs.erase e.msgHash)
      refine ⟨e :: p, ?_, ?_⟩
      · rw [List.cons_append, ← hp1]
      · rw [List.foldl_cons, ← hp2]
    · exact ⟨[], rfl, rfl⟩

lemma mem_foldl_erase {p : List HistoryEntry} {hs : List Text} {h : Text}
    (hmem : h ∈ hs) (hne : ∀ e ∈ p, e.msgHash ≠ h) :
    h ∈ p.foldl (fun a e => a.erase e.msgHash) hs := by
  induction p generalizing hs with
  | nil => simpa using hmem
  | cons e rest ih =>
    rw [List.foldl_cons]
    refine ih ?_ ?_
    · exact (List.mem_erase_of_ne (hne e (List.mem_cons_self _ _)).symm).mpr hmem
    · intro e2 he2
      exact hne e2 (List.mem_cons_of_mem _ he2)

lemma nodup_split_disjoint {α : Type} {A p B : List α}
    (h : (A ++ (p ++ B)).Nodup) : ∀ x ∈ p, x ∉ A ∧ x ∉ B := by
  rw [List.nodup_append] at h
  obtain ⟨hA, hpB, hd⟩ := h
  rw [List.nodup_append] at hpB
  obtain ⟨hp, hB, hd2⟩ := hpB
  intro x hx
  constructor
  · intro hxA
    exact hd hxA (List.mem_append_left _ hx)
  · intro hxB
    exact hd2 hx hxB

lemma allEntries_cleanup (u : Nat) (now : ℚ) (st : FilterState) :
    allEntries (cleanupOldMessages u now st) =
      umEntries (setUser u
        (cleanupLoop st.timeWindow now ((lookupUser u st.userMessages).getD [])
          st.messageHashes).1
        st.userMessages) := rfl

lemma messageHashes_cleanup (u : Nat) (now : ℚ) (st : FilterState) :
    (cleanupOldMessages u now st).messageHashes =
      (cleanupLoop st.timeWindow now ((lookupUser u st.userMessages).getD [])
        st.messageHashes).2 := rfl

lemma cleanupOldMessages_entries_subset (u : Nat) (now : ℚ) (st : FilterState) :
    ∀ e ∈ allEntries (cleanupOldMessages u now st), e ∈ allEntries st := by
  intro e he
  cases hl : lookupUser u st.userMessages with
  | none =>
    have hd : (lookupUser u st.userMessages).getD [] = [] := by rw [hl]; rfl
    rw [allEntries_cleanup, hd] at he
    rw [umEntries_setUser_none hl _] at he
    have hz : (cleanupLoop st.timeWindow now [] st.messageHashes).1 = [] := rfl
    rw [hz] at he
    simpa [allEntries] using he
  | some d0 =>
    have hd : (lookupUser u st.userMessages).getD [] = d0 := by rw [hl]; rfl
    obtain ⟨A, B, hAB, hset⟩ := umEntries_setUser_some hl
    obtain ⟨p, hp1, hp2⟩ := cleanupLoop_spec st.timeWindow now d0 st.messageHashes
    rw [allEntries_cleanup, hd, hset] at he
    have hOldE : allEntries st =
        A ++ ((p ++ (cleanupLoop st.timeWindow now d0 st.messageHashes).1) ++ B) := by
      unfold allEntries
      conv_lhs => rw [hAB, hp1]
    rw [hOldE]
    simp only [List.mem_append] at he ⊢
    tauto

/-- C7 corrected: `None` (and other falsy values) pass the `if not text`
guard, are treated as empty input and ADMITTED without appending anything
(the state change is the counter bump plus lazy stale-entry eviction); but
a truthy non-string is NOT treated as empty — it raises `AttributeError`
at `text.lower()`. -/
theorem c7_malformed_input (st : FilterState) (now : ℚ) (u : Nat) (n : Int) (hn : n ≠ 0) :
    isDuplicatePy st now u PyVal.pynone =
      Except.ok (false,
        cleanupOldMessages u now { st with totalProcessed := st.totalProcessed + 1 })
  ∧ (∀ e ∈ allEntries
        (cleanupOldMessages u now { st with totalProcessed := st.totalProcessed + 1 }),
      e ∈ allEntries st)
  ∧ isDuplicatePy st now u (PyVal.pyint n) =
      Except.error ("AttributeError".data,
        cleanupOldMessages u now { st with totalProcessed := st.totalProcessed + 1 }) := by
  refine ⟨?_, ?_, ?_⟩
  · simp [isDuplicatePy, isDuplicate, normalizeText]
  · intro e he
    exact cleanupOldMessages_entries_subset u now _ e he
  · simp [isDuplicatePy, hn]

/-- Witness for C7 at a concrete input. -/
theorem c7_malformed_input_witness :
    (1 : Int) ≠ 0
  ∧ (isDuplicatePy (initState 300 10 (4/5)) 0 1 PyVal.pynone =
      Except.ok (false, cleanupOldMessages 1 0
        { initState 300 10 (4/5) with
          totalProcessed := (initState 300 10 (4/5)).totalProcessed + 1 })
    ∧ (∀ e ∈ allEntries (cleanupOldMessages 1 0
        { initState 300 10 (4/5) with
          totalProcessed := (initState 300 10 (4/5)).totalProcessed + 1 }),
        e ∈ allEntries (initState 300 10 (4/5)))
    ∧ isDuplicatePy (initState 300 10 (4/5)) 0 1 (PyVal.pyint 1) =
        Except.error ("AttributeError".data, cleanupOldMessages 1 0
          { initState 300 10 (4/5) with
            totalProcessed := (initState 300 10 (4/5)).totalProcessed + 1 })) :=
  ⟨by decide, c7_malformed_input (initState 300 10 (4/5)) 0 1 1 (by decide)⟩

lemma hashInv_cleanupOldMessages (u : Nat) (now : ℚ) (st : FilterState)
    (hInv : HashInv st) : HashInv (cleanupOldMessages u now st) := by
  cases hl : lookupUser u st.userMessages with
  | none =>
    have hd : (lookupUser u st.userMessages).getD [] = [] := by rw [hl]; rfl
    have hz : (cleanupLoop st.timeWindow now [] st.messageHashes).1 = [] := rfl
    have hEnt : allEntries (cleanupOldMessages u now st) = umEntries st.userMessages := by
      rw [allEntries_cleanup, hd, umEntries_setUser_none hl _, hz, List.append_nil]
    have hHs : (cleanupOldMessages u now st).messageHashes = st.messageHashes := by
      rw [messageHashes_cleanup, hd]
      rfl
    constructor
    · intro e he
      rw [hEnt] at he
      rw [hHs]
      exact hInv.1 e he
    · unfold allHashes
      rw [hEnt]
      exact hInv.2
  | some d0 =>
    have hd : (lookupUser u st.userMessages).getD [] = d0 := by rw [hl]; rfl
    obtain ⟨A, B, hAB, hset⟩ := umEntries_setUser_some hl
    obtain ⟨p, hp1, hp2⟩ := cleanupLoop_spec st.timeWindow now d0 st.messageHashes
    have hEnt : allEntries (cleanupOldMessages u now st) =
        A ++ ((cleanupLoop st.timeWindow now d0 st.messageHashes).1 ++ B) := by
      rw [allEntries_cleanup, hd, hset]
    have hHs : (cleanupOldMessages u now st).messageHashes =
        List.foldl (fun a e => a.erase e.msgHash) st.messageHashes p := by
      rw [messageHashes_cleanup, hd, hp2]
    have hOldE : allEntries st =
        A ++ ((p ++ (cleanupLoop st.timeWindow now d0 st.messageHashes).1) ++ B) := by
      unfold allEntries
      conv_lhs => rw [hAB, hp1]
    have hndOld : ((A.map (fun x => x.msgHash)) ++ ((p.map (fun x => x.msgHash)) ++
        (((cleanupLoop st.timeWindow now d0 st.messageHashes).1.map (fun x => x.msgHash)) ++
          (B.map (fun x => x.msgHash))))).Nodup := by
      have h2 := hInv.2
      unfold allHashes at h2
      rw [hOldE] at h2
      simpa [List.map_append, List.append_assoc] using h2
    have hdisj := nodup_split_disjoint hndOld
    constructor
    · intro e he
      rw [hEnt] at he
      rw [hHs]
      apply mem_foldl_erase
      · apply hInv.1
        rw [hOldE]
        simp only [List.mem_append] at he ⊢
        tauto
      · intro e2 he2 heq
        have hy := hdisj (e2.msgHash) (List.mem_map_of_mem _ he2)
        rcases List.mem_append.mp he with hA2 | hKB2
        · exact hy.1 (by rw [heq]; exact List.mem_map_of_mem _ hA2)
        · apply hy.2
          rw [heq]
          rcases List.mem_append.mp hKB2 with h3 | h3
          · exact List.mem_append_left _ (List.mem_map_of_mem _ h3)
          · exact List.mem_append_right _ (List.mem_map_of_mem _ h3)
    · have hsub : List.Sublist
          (A ++ ((cleanupLoop st.timeWindow now d0 st.messageHashes).1 ++ B))
          (A ++ ((p ++ (cleanupLoop st.timeWindow now d0 st.messageHashes).1) ++ B)) := by
        apply List.Sublist.append_left
        rw [List.append_assoc]
        exact List.sublist_append_right p _
      have h2 := hInv.2
      unfold allHashes at h2
      rw [hOldE] at h2
      unfold allHashes
      rw [hEnt]
      exact h2.sublist (hsub.map _)

lemma dequeAppend_sublist (ml : Nat) (d : List HistoryEntry) (e : HistoryEntry) :
    List.Sublist (dequeAppend ml d e) (d ++ [e]) :=
  List.drop_sublist _ _

lemma nodup_insert_between {α : Type} {A d0 B D : List α} {x : α}
    (hnd : (A ++ (d0 ++ B)).Nodup) (hx : x ∉ A ++ (d0 ++ B))
    (hD : List.Sublist D (d0 ++ [x])) : (A ++ (D ++ B)).Nodup := by
  have h2 : ((A ++ d0) ++ x :: B).Nodup := by
    rw [List.nodup_middle, List.nodup_cons]
    constructor
    · simpa [List.append_assoc] using hx
    · simpa [List.append_assoc] using hnd
  have h1 : (A ++ ((d0 ++ [x]) ++ B)).Nodup := by
    simpa [List.append_assoc] using h2
  have hsub : List.Sublist (A ++ (D ++ B)) (A ++ ((d0 ++ [x]) ++ B)) :=
    (hD.append_right B).append_left A
  exact h1.sublist hsub

lemma hashInv_appendEntry (um : List (Nat × List HistoryEntry)) (hs : List Text)
    (ml : Nat) (e : HistoryEntry) (u : Nat)
    (hfwd : ∀ x ∈ umEntries um, x.msgHash ∈ hs)
    (hnd : ((umEntries um).map (fun x => x.msgHash)).Nodup)
    (hnew : e.msgHash ∉ hs) :
    (∀ x ∈ umEntries (setUser u (dequeAppend ml ((lookupUser u um).getD []) e) um),
        x.msgHash ∈ insertHash hs e.msgHash)
    ∧ ((umEntries (setUser u (dequeAppend ml ((lookupUser u um).getD []) e) um)).map
        (fun x => x.msgHash)).Nodup := by
  have hins : insertHash hs e.msgHash = hs ++ [e.msgHash] := by
    unfold insertHash
    rw [if_neg hnew]
  have hxOld : e.msgHash ∉ ((umEntries um).map (fun x => x.msgHash)) := by
    intro hmem
    rcases List.mem_map.mp hmem with ⟨y, hy, hyeq⟩
    exact hnew (hyeq ▸ hfwd y hy)
  cases hl : lookupUser u um with
  | none =>
    simp only [Option.getD_none]
    have hEnt : umEntries (setUser u (dequeAppend ml [] e) um) =
        umEntries um ++ dequeAppend ml [] e := umEntries_setUser_none hl _
    have hDsub : List.Sublist ((dequeAppend ml [] e).map (fun x => x.msgHash))
        ([] ++ [e.msgHash]) := by
      simpa using (dequeAppend_sublist ml [] e).map (fun x => x.msgHash)
    constructor
    · intro x hx
      rw [hEnt] at hx
      rw [hins]
      rcases List.mem_append.mp hx with h1 | h1
      · exact List.mem_append_left _ (hfwd x h1)
      · rcases List.mem_append.mp ((dequeAppend_sublist ml [] e).subset h1) with h3 | h3
        · simp at h3
        · rw [List.mem_singleton] at h3
          subst h3
          exact List.mem_append_right _ (by simp)
    · rw [hEnt, List.map_append]
      have := @nodup_insert_between Text ((umEntries um).map (fun x => x.msgHash))
        [] [] ((dequeAppend ml [] e).map (fun x => x.msgHash)) e.msgHash
        (by simpa using hnd) (by simpa using hxOld) hDsub
      simpa using this
  | some d0 =>
    simp only [Option.getD_some]
    obtain ⟨A, B, hAB, hset⟩ := umEntries_setUser_some hl
    have hEnt : umEntries (setUser u (dequeAppend ml d0 e) um) =
        A ++ (dequeAppend ml d0 e ++ B) := hset _
    have hDsub : List.Sublist ((dequeAppend ml d0 e).map (fun x => x.msgHash))
        (d0.map (fun x => x.msgHash) ++ [e.msgHash]) := by
      simpa [List.map_append] using (dequeAppend_sublist ml d0 e).map (fun x => x.msgHash)
    constructor
    · intro x hx
      rw [hEnt] at hx
      rw [hins]
      rcases List.mem_append.mp hx with h1 | h1
      · exact List.mem_append_left _ (hfwd x (by rw [hAB]; exact List.mem_append_left _ h1))
      · rcases List.mem_append.mp h1 with h2 | h2
        · rcases List.mem_append.mp ((dequeAppend_sublist ml d0 e).subset h2) with h3 | h3
          · refine List.mem_append_left _ (hfwd x ?_)
            rw [hAB]
            exact List.mem_append_right _ (List.mem_append_left _ h3)
          · rw [List.mem_singleton] at h3
            subst h3
            exact List.mem_append_right _ (by simp)
        · refine List.mem_append_left _ (hfwd x ?_)
          rw [hAB]
          exact List.mem_append_right _ (List.mem_append_right _ h2)
    · rw [hEnt, List.map_append]
      have hndArr : ((A.map (fun x => x.msgHash)) ++ ((d0.map (fun x => x.msgHash)) ++
          (B.map (fun x => x.msgHash)))).Nodup := by
        have h2 := hnd
        rw [hAB] at h2
        simpa [List.map_append] using h2
      have hxArr : e.msgHash ∉ (A.map (fun x => x.msgHash)) ++ ((d0.map (fun x => x.msgHash)) ++
          (B.map (fun x => x.msgHash))) := by
        have h2 := hxOld
        rw [hAB] at h2
        simpa [List.map_append] using h2
      have := nodup_insert_between hndArr hxArr hDsub
      simpa [List.map_append, List.append_assoc] using this

lemma hashInv_isDuplicate (st : FilterState) (now : ℚ) (u : Nat) (msg : Text)
    (hInv : HashInv st) : HashInv (isDuplicate st now u msg).2 := by
  have h2 : HashInv
      (cleanupOldMessages u now { st with totalProcessed := st.totalProcessed + 1 }) :=
    hashInv_cleanupOldMessages u now _ hInv
  unfold isDuplicate
  dsimp only
  split
  · exact h2
  · split
    · exact h2
    · next hni =>
      split
      · exact h2
      · exact hashInv_appendEntry _ _ _ _ u h2.1 h2.2 hni

lemma hashInv_clearUserCache (u : Nat) (st : FilterState) (hInv : HashInv st) :
    HashInv (clearUserCache u st) := by
  unfold clearUserCache
  cases hl : lookupUser u st.userMessages with
  | none => exact hInv
  | some d0 =>
    obtain ⟨A, B, hAB, hset⟩ := umEntries_setUser_some hl
    have hOldE : allEntries st = A ++ (d0 ++ B) := hAB
    have hndArr : ((A.map (fun x => x.msgHash)) ++ ((d0.map (fun x => x.msgHash)) ++
        (B.map (fun x => x.msgHash)))).Nodup := by
      have h2 := hInv.2
      unfold allHashes at h2
      rw [hOldE] at h2
      simpa [List.map_append] using h2
    have hdisj := nodup_split_disjoint hndArr
    refine ⟨?_, ?_⟩
    · show ∀ x ∈ umEntries (setUser u [] st.userMessages),
        x.msgHash ∈ d0.foldl (fun hs e => hs.erase e.msgHash) st.messageHashes
      intro x hx
      rw [hset []] at hx
      apply mem_foldl_erase
      · apply hInv.1
        rw [hOldE]
        simp only [List.mem_append] at hx ⊢
        tauto
      · intro e2 he2 heq
        have hy := hdisj (e2.msgHash) (List.mem_map_of_mem _ he2)
        rcases List.mem_append.mp hx with h1 | h1
        · exact hy.1 (by rw [heq]; exact List.mem_map_of_mem _ h1)
        · rw [List.nil_append] at h1
          exact hy.2 (by rw [heq]; exact List.mem_map_of_mem _ h1)
    · show ((umEntries (setUser u [] st.userMessages)).map (fun x => x.msgHash)).Nodup
      rw [hset []]
      have hsub : List.Sublist (A ++ ([] ++ B)) (A ++ (d0 ++ B)) :=
        ((List.nil_sublist d0).append_right B).append_left A
      have h2 := hInv.2
      unfold allHashes at h2
      rw [hOldE] at h2
      exact h2.sublist (hsub.map _)

lemma hashInv_clearAllCache (st : FilterState) : HashInv (clearAllCache st) := by
  constructor
  · intro e he
    simp [clearAllCache, allEntries, umEntries] at he
  · simp [allHashes, allEntries, umEntries, clearAllCache]

lemma hashInv_initState (tw : ℚ) (ml : Nat) (th : ℚ) : HashInv (initState tw ml th) := by
  constructor
  · intro e he
    simp [initState, allEntries, umEntries] at he
  · simp [allHashes, allEntries, umEntries, initState]

lemma hashInv_step (st : FilterState) (op : Op) (h : HashInv st) : HashInv (step st op) := by
  cases op with
  | dup now u msg => exact hashInv_isDuplicate st now u msg h
  | clearUser u => exact hashInv_clearUserCache u st h
  | clearAll => exact hashInv_clearAllCache st

lemma hashInv_run (ops : List Op) : ∀ (st : FilterState), HashInv st → HashInv (run st ops) := by
  induction ops with
  | nil => intro st h; exact h
  | cons op rest ih =>
    intro st h
    exact ih _ (hashInv_step st op h)

/-- C10: in every state reachable by any sequence of `is_duplicate`,
`clear_user_cache` and `clear_all_cache` calls from a fresh filter, no two
retained history entries — in the same or different actors' deques — carry
the same content hash (the hash list of all retained entries has no
duplicates), because an entry is only appended when its hash is absent
from the global index. -/
theorem c10_hash_uniqueness (tw : ℚ) (ml : Nat) (th : ℚ) (ops : List Op) :
    (allHashes (run (initState tw ml th) ops)).Nodup :=
  (hashInv_run ops (initState tw ml th) (hashInv_initState tw ml th)).2

end SupportBot
